import Mathlib

/-!
Verification development for the archive-bundling service in src/main.go.

The service collects remote file references per task, downloads them, and
zips them once a per-task quota is reached.  We shallowly embed the data
model (Task, File, Config), the pure helpers (isValidURL, parseURL,
hasAllowedExtension, the filename derivation of downloadFile), the POST
handler body of handleTaskFiles (addFile), the archive builder
(createZipArchive), and a small-step system model of the task registry and
the admission semaphore, and prove the stated invariants about them.

External collaborators (the Go standard library pieces: net/url parsing,
path/filepath Base and Ext, strings.ToLower) are modelled on character
lists, restricted to ASCII inputs without percent-escapes, which covers
every input the theorems below evaluate them on.
-/

namespace Srv

/-- Model of strings.HasPrefix on character lists. -/
def startsWithChars : List Char → List Char → Bool
  | [], _ => true
  | _, [] => false
  | a :: as, b :: bs => a == b && startsWithChars as bs

/-- Model of path/filepath.Base (Unix separator): empty input gives a dot,
trailing slashes are stripped, the part after the last slash remains, and
an all-slash input gives a slash. -/
def baseChars (l : List Char) : List Char :=
  if l.isEmpty then [ '.' ]
  else
    let r := l.reverse.dropWhile (fun c => c == '/')
    if r.isEmpty then [ '/' ]
    else (r.takeWhile (fun c => c != '/')).reverse

/-- Model of path/filepath.Ext: the suffix of the final path element
starting at its last dot, empty when the final element has no dot. -/
def extChars (l : List Char) : List Char :=
  let seg := l.reverse.takeWhile (fun c => c != '/')
  if seg.contains '.' then '.' :: (seg.takeWhile (fun c => c != '.')).reverse
  else []

/-- ASCII case lowering, the fragment of strings.ToLower used on
extensions. -/
def lowerChar (c : Char) : Char :=
  if 65 ≤ c.toNat ∧ c.toNat ≤ 90 then Char.ofNat (c.toNat + 32) else c

/-- Position of a marker substring: the remainder of the list after the
first occurrence of the marker, if any. -/
def afterMarker (marker : List Char) : List Char → Option (List Char)
  | [] => none
  | c :: rest =>
    if startsWithChars marker (c :: rest) then some ((c :: rest).drop marker.length)
    else afterMarker marker rest

/-- Model of the path and raw query a net/url.Parse of a simple URL
yields: the fragment is cut at the first hash; when a scheme marker is
present the authority runs to the first slash or question mark; the path
then runs to the first question mark and the raw query follows it.
Restricted to URLs without percent-escapes, which every concrete input
below satisfies. -/
def urlPathQuery (raw : List Char) : List Char × List Char :=
  let noFrag := raw.takeWhile (fun c => c != '#')
  match afterMarker [ ':', '/', '/' ] noFrag with
  | some rest =>
    let pq := rest.dropWhile (fun c => c != '/' && c != '?')
    (pq.takeWhile (fun c => c != '?'), (pq.dropWhile (fun c => c != '?')).drop 1)
  | none =>
    (noFrag.takeWhile (fun c => c != '?'), (noFrag.dropWhile (fun c => c != '?')).drop 1)

/-- Split a character list on a separator character. -/
def splitOnChar (sep : Char) : List Char → List (List Char)
  | [] => [ [] ]
  | c :: rest =>
    let r := splitOnChar sep rest
    if c == sep then [] :: r
    else
      match r with
      | [] => [ [ c ] ]
      | h :: t => (c :: h) :: t

/-- Cut a query component at its first equals sign into key and value,
the model of the pair splitting in net/url.ParseQuery. -/
def cutEq (l : List Char) : List Char × List Char :=
  (l.takeWhile (fun c => c != '='), (l.dropWhile (fun c => c != '=')).drop 1)

/-- Model of url.Values.Get: the value of the first query component whose
key matches, empty when absent. -/
def queryGet (key : List Char) (raw : List Char) : List Char :=
  if raw.isEmpty then []
  else
    match (splitOnChar '&' raw).find? (fun p => (cutEq p).1 == key) with
    | some p => (cutEq p).2
    | none => []

/-- Translation of Config (src/main.go lines 26-32), keeping the fields
the core logic reads. -/
structure Config where
  maxFilesPerTask : Nat
  maxActiveTasks : Nat
  tempFolder : String
deriving DecidableEq, Repr

/-- Translation of the package-level config value (src/main.go lines
35-45). -/
def config : Config :=
  { maxFilesPerTask := 3, maxActiveTasks := 3, tempFolder := "temp_archives" }

/-- Translation of File (src/main.go lines 64-68); payload bytes are
naturals. -/
structure File where
  url : String
  filename : String
  data : List Nat
deriving DecidableEq, Repr

/-- Translation of Task (src/main.go lines 53-61); the mutex lives in the
step relation, the creation time is irrelevant to every claim. -/
structure Task where
  id : String
  status : String
  files : List File
  errors : List String
  zipPath : String
deriving DecidableEq, Repr

/-- Translation of isValidURL (src/main.go lines 94-96). -/
def isValidURL (url : String) : Bool :=
  startsWithChars ("http://".data) url.data || startsWithChars ("https://".data) url.data

/-- Translation of parseURL (src/main.go lines 286-303): an explicit
filename query parameter wins, otherwise the base of the path, and an
empty path with no parameter is the no-filename error. -/
def parseURL (rawURL : String) : Option String :=
  let pq := urlPathQuery rawURL.data
  let fn := queryGet ("filename".data) pq.2
  if fn.isEmpty then
    if pq.1.isEmpty then none else some (String.mk (baseChars pq.1))
  else some (String.mk fn)

/-- Translation of hasAllowedExtension (src/main.go lines 306-318); note
the allow-list is hardcoded there, not read from config. -/
def hasAllowedExtension (rawURL : String) : Bool :=
  match parseURL rawURL with
  | none => false
  | some filename =>
    let ext := String.mk ((extChars filename.data).map lowerChar)
    ext == ".jpeg" || ext == ".jpg" || ext == ".pdf"

/-- Translation of the filename derivation in downloadFile (src/main.go
lines 337-340): the base of the raw URL string, with a fallback name when
that base degenerates to a dot or a slash. -/
def downloadFilename (url : String) : String :=
  let filename := String.mk (baseChars url.data)
  if filename == "." || filename == "/" then String.mk ("file".data ++ extChars url.data)
  else filename

/-- An addFile request: the Content-Type header and the decoded JSON
body.  The body field is the outcome of json.Unmarshal, an external
collaborator: some url when the body is well-formed JSON carrying a url
field (possibly empty), none when unmarshalling fails. -/
structure Request where
  contentType : String
  body : Option String
deriving DecidableEq, Repr

/-- Translation of decodeJSONBody (src/main.go lines 346-361): an exact
Content-Type match is required before the body is consulted. -/
def decodeJSONBody (req : Request) : Option String :=
  if req.contentType = "application/json" then req.body else none

/-- Outcome reported by the POST branch of handleTaskFiles. -/
inductive AddFileResult where
  | quotaExceeded
  | invalidBody
  | invalidURL
  | notAllowed
  | fetchFailed
  | accepted
deriving DecidableEq, Repr

/-- Result of one addFile call: the new task record, whether the archive
build was dispatched by this call, and the reported outcome. -/
structure AddOut where
  task : Task
  dispatched : Bool
  result : AddFileResult
deriving DecidableEq, Repr

/-- Diagnostic recorded on a fetch failure (src/main.go line 187), with
the transport error detail omitted. -/
def failedDownloadMsg (url : String) : String := "Failed to download " ++ url

/-- Translation of the POST branch of handleTaskFiles (src/main.go lines
153-218), the body that runs under the task mutex: quota check, body
decoding, URL validation, extension check, fetch, append, and the
quota-reaching dispatch.  The network fetch is the external collaborator
fetchRes: some data on success, none on failure. -/
def addFile (cfg : Config) (fetchRes : Option (List Nat)) (req : Request) (t : Task) : AddOut :=
  if cfg.maxFilesPerTask ≤ t.files.length then ⟨t, false, AddFileResult.quotaExceeded⟩
  else
    match decodeJSONBody req with
    | none => ⟨t, false, AddFileResult.invalidBody⟩
    | some url =>
      if isValidURL url then
        if hasAllowedExtension url then
          match fetchRes with
          | none =>
            ⟨{ t with errors := t.errors ++ [ failedDownloadMsg url ] }, false, AddFileResult.fetchFailed⟩
          | some data =>
            let t1 := { t with files := t.files ++ [ { url := url, filename := downloadFilename url, data := data } ] }
            if t1.files.length = cfg.maxFilesPerTask then
              ⟨{ t1 with status := "processing" }, true, AddFileResult.accepted⟩
            else ⟨t1, false, AddFileResult.accepted⟩
        else ⟨t, false, AddFileResult.notAllowed⟩
      else ⟨t, false, AddFileResult.invalidURL⟩

/-- Archive path for a task (src/main.go line 248): filepath.Join of the
temp folder and the task id with a zip suffix. -/
def zipPathFor (cfg : Config) (id : String) : String :=
  cfg.tempFolder ++ "/" ++ id ++ ".zip"

/-- Outcome of one loop iteration of createZipArchive for one file, an
external storage collaborator: entry creation may fail, the payload write
may fail, or both succeed. -/
inductive EntryOut where
  | ok
  | createFailed
  | writeFailed
deriving DecidableEq, Repr

/-- Diagnostic for a failed zipWriter.Create (src/main.go line 267), with
the error detail omitted. -/
def addEntryFailMsg (fn : String) : String := "Failed to add file " ++ fn ++ " to archive"

/-- Diagnostic for a failed entry write (src/main.go line 274), with the
error detail omitted. -/
def writeEntryFailMsg (fn : String) : String := "Failed to write file " ++ fn ++ " to archive"

/-- Diagnostics appended by the entry loop of createZipArchive
(src/main.go lines 263-277), one per failing entry in file order;
outcomes missing from the oracle list default to success. -/
def buildErrors : List EntryOut → List File → List String
  | _, [] => []
  | [], _ :: fs => buildErrors [] fs
  | EntryOut.ok :: os, _ :: fs => buildErrors os fs
  | EntryOut.createFailed :: os, f :: fs => addEntryFailMsg f.filename :: buildErrors os fs
  | EntryOut.writeFailed :: os, f :: fs => writeEntryFailMsg f.filename :: buildErrors os fs

/-- Names of the entries the loop of createZipArchive actually creates in
the archive: every file in order except those whose zipWriter.Create
failed (a failed payload write still leaves the created entry). -/
def archiveEntries : List EntryOut → List File → List String
  | _, [] => []
  | [], f :: fs => f.filename :: archiveEntries [] fs
  | EntryOut.ok :: os, f :: fs => f.filename :: archiveEntries os fs
  | EntryOut.writeFailed :: os, f :: fs => f.filename :: archiveEntries os fs
  | EntryOut.createFailed :: os, _ :: fs => archiveEntries os fs

/-- Number of failing entry outcomes paired with an actual file. -/
def entryFailCount : List EntryOut → List File → Nat
  | _, [] => 0
  | [], _ :: fs => entryFailCount [] fs
  | EntryOut.ok :: os, _ :: fs => entryFailCount os fs
  | EntryOut.createFailed :: os, _ :: fs => entryFailCount os fs + 1
  | EntryOut.writeFailed :: os, _ :: fs => entryFailCount os fs + 1

/-- Number of entry creations that failed among the actual files. -/
def createFailCount : List EntryOut → List File → Nat
  | _, [] => 0
  | [], _ :: fs => createFailCount [] fs
  | EntryOut.ok :: os, _ :: fs => createFailCount os fs
  | EntryOut.writeFailed :: os, _ :: fs => createFailCount os fs
  | EntryOut.createFailed :: os, _ :: fs => createFailCount os fs + 1

/-- Translation of createZipArchive (src/main.go lines 243-283), with the
storage outcomes as oracles: when the archive file cannot be created the
task fails and keeps its empty archive path; otherwise the entry loop
appends one diagnostic per failing entry and the task completes with the
archive path set.  The builder is collapsed to one step: its intermediate
mutex sections only append diagnostics, and no other mutation can
interleave because the task already holds quota-many files. -/
def createZipArchive (cfg : Config) (createOk : Bool) (outs : List EntryOut) (t : Task) : Task :=
  if createOk then
    { t with errors := t.errors ++ buildErrors outs t.files,
             status := "completed",
             zipPath := zipPathFor cfg t.id }
  else
    { t with status := "failed",
             errors := t.errors ++ [ "Failed to create zip file" ] }

/-- Per-task runtime state: the task record plus bookkeeping for the
dispatched archive build.  pending records that a build goroutine was
started (go createZipArchive, src/main.go line 208) and has not yet run;
dispatchCount counts those starts; releaseCount counts the semaphore
receives performed by finished builds (src/main.go lines 244-246). -/
structure TaskCtl where
  task : Task
  pending : Bool
  dispatchCount : Nat
  releaseCount : Nat
deriving DecidableEq, Repr

/-- Initial per-task state as created by handleTasks (src/main.go lines
108-113). -/
def initCtl (id : String) : TaskCtl :=
  { task := { id := id, status := "created", files := [], errors := [], zipPath := "" },
    pending := false, dispatchCount := 0, releaseCount := 0 }

/-- Events of one task: a POST with its decoded request and the fetch
outcome, the run of a dispatched archive build with its storage outcomes,
and a GET status poll (which never mutates).  Because the task mutex
serializes every handler body, the events of one task form a sequence. -/
inductive TEv where
  | post (req : Request) (fetchRes : Option (List Nat))
  | build (createOk : Bool) (outs : List EntryOut)
  | get
deriving DecidableEq, Repr

/-- One serialized event of one task.  A build event only has an effect
while a dispatched build is pending; it consumes the pending flag and
releases one admission slot. -/
def stepTask (cfg : Config) (e : TEv) (c : TaskCtl) : TaskCtl :=
  match e with
  | TEv.post req fetchRes =>
    let o := addFile cfg fetchRes req c.task
    { task := o.task,
      pending := c.pending || o.dispatched,
      dispatchCount := c.dispatchCount + (if o.dispatched then 1 else 0),
      releaseCount := c.releaseCount }
  | TEv.build createOk outs =>
    if c.pending then
      { task := createZipArchive cfg createOk outs c.task,
        pending := false,
        dispatchCount := c.dispatchCount,
        releaseCount := c.releaseCount + 1 }
    else c
  | TEv.get => c

/-- Whole-system state: the task registry in creation order.  Successful
admission acquisitions equal the number of created tasks, and semaphore
occupancy is acquisitions minus releases. -/
structure Sys where
  tasks : List TaskCtl
deriving DecidableEq, Repr

/-- Number of successful admission acquisitions: one per created task
(src/main.go lines 106-117). -/
def sysAcquires (s : Sys) : Nat := s.tasks.length

/-- Number of admission-slot releases performed so far by finished
builds. -/
def sysReleases (s : Sys) : Nat := (s.tasks.map TaskCtl.releaseCount).sum

/-- Update the element at an index, when in range. -/
def updateAt (i : Nat) (f : TaskCtl → TaskCtl) : List TaskCtl → List TaskCtl
  | [] => []
  | c :: l =>
    match i with
    | 0 => f c :: l
    | n + 1 => c :: updateAt n f l

/-- System events: a task-creation request (handleTasks), which succeeds
exactly when the semaphore has a free slot, and an event of an existing
task. -/
inductive GEv where
  | newTask (id : String)
  | taskEv (i : Nat) (e : TEv)
deriving DecidableEq, Repr

/-- One system step.  Task creation is admitted when occupancy is below
the configured bound (the non-blocking channel send of src/main.go lines
106-128); a saturated semaphore rejects the request and nothing changes. -/
def stepSys (cfg : Config) (s : Sys) (e : GEv) : Sys :=
  match e with
  | GEv.newTask id =>
    if sysAcquires s - sysReleases s < cfg.maxActiveTasks then
      { tasks := s.tasks ++ [ initCtl id ] }
    else s
  | GEv.taskEv i e => { tasks := updateAt i (stepTask cfg e) s.tasks }

/-- Run of the system from the empty registry over a list of events. -/
def runSys (cfg : Config) (evs : List GEv) : Sys :=
  evs.foldl (stepSys cfg) { tasks := [] }

/-- Control-flow phases of the POST branch of handleTaskFiles
(src/main.go lines 153-218), in source order. -/
inductive HStep where
  | lockStep
  | quotaCheck
  | decodeBody
  | validateURL
  | extCheck
  | fetchStep
  | appendFile
  | dispatchCheck
  | respond
  | unlockStep
deriving DecidableEq, Repr

/-- Phase sequence of one POST handler execution.  The task mutex is
acquired at entry (src/main.go line 154) and released by defer when the
handler returns (line 155), so the unlock phase closes every control
path; every early return passes through it. -/
def postSteps (cfg : Config) (fetchRes : Option (List Nat)) (req : Request) (t : Task) : List HStep :=
  [ HStep.lockStep, HStep.quotaCheck ] ++
  (if cfg.maxFilesPerTask ≤ t.files.length then [ HStep.respond, HStep.unlockStep ]
   else
    [ HStep.decodeBody ] ++
    match decodeJSONBody req with
    | none => [ HStep.respond, HStep.unlockStep ]
    | some url =>
      [ HStep.validateURL ] ++
      if isValidURL url then
        [ HStep.extCheck ] ++
        if hasAllowedExtension url then
          [ HStep.fetchStep ] ++
          match fetchRes with
          | none => [ HStep.respond, HStep.unlockStep ]
          | some _ => [ HStep.appendFile, HStep.dispatchCheck, HStep.respond, HStep.unlockStep ]
        else [ HStep.respond, HStep.unlockStep ]
      else [ HStep.respond, HStep.unlockStep ])

/-- Number of occurrences of a phase in a list. -/
def countStep (x : HStep) (l : List HStep) : Nat :=
  (l.filter (fun s => s == x)).length

/-- The mutex is held at position i exactly when more lock phases than
unlock phases precede it. -/
def lockHeldAt (l : List HStep) (i : Nat) : Bool :=
  Nat.blt (countStep HStep.unlockStep (l.take i)) (countStep HStep.lockStep (l.take i))

/-- Scan of a phase list checking that every fetch phase happens with a
positive lock balance. -/
def fetchUnderLockFrom : Nat → List HStep → Bool
  | _, [] => true
  | bal, s :: rest =>
    (if s == HStep.fetchStep then Nat.blt 0 bal else true) &&
    fetchUnderLockFrom
      (match s with
       | HStep.lockStep => bal + 1
       | HStep.unlockStep => bal - 1
       | _ => bal) rest

/-- Every fetch phase of the list runs while the lock is held. -/
def fetchUnderLock (l : List HStep) : Bool := fetchUnderLockFrom 0 l

/-- Inductive invariant of one task under its serialized events: the file
count respects the quota; the build is dispatched at most once and only
by the call that reaches the quota; release and pending bookkeeping match
the dispatch count; the archive path is set exactly in the completed
state; a pending build means the task is processing; and a terminal state
means the build was dispatched. -/
def TaskInv (cfg : Config) (c : TaskCtl) : Prop :=
  c.task.files.length ≤ cfg.maxFilesPerTask ∧
  c.dispatchCount ≤ 1 ∧
  (c.dispatchCount = 1 → c.task.files.length = cfg.maxFilesPerTask) ∧
  c.releaseCount + (if c.pending then 1 else 0) = c.dispatchCount ∧
  (c.task.zipPath ≠ "" ↔ c.task.status = "completed") ∧
  (c.pending = true → c.task.status = "processing") ∧
  (c.task.status = "completed" ∨ c.task.status = "failed" → c.dispatchCount = 1)

/-- System invariant: every task satisfies its invariant and semaphore
occupancy stays within the configured bound. -/
def SysInv (cfg : Config) (s : Sys) : Prop :=
  (∀ c ∈ s.tasks, TaskInv cfg c) ∧ sysAcquires s - sysReleases s ≤ cfg.maxActiveTasks

/-- ASCII letter test. -/
def isAsciiAlpha (c : Char) : Bool :=
  (97 ≤ c.toNat && c.toNat ≤ 122) || (65 ≤ c.toNat && c.toNat ≤ 90)

/-- Modelled from the spec: a well-formed absolute URL, the notion the
spec checks InvalidReference against — a reference with a nonempty
alphabetic scheme, the scheme separator, and a nonempty authority.  The
source has no such parser; its validity test is only a prefix check. -/
def wellFormedAbsoluteURL (s : String) : Bool :=
  match afterMarker [ ':', '/', '/' ] s.data with
  | none => false
  | some rest =>
    let scheme := s.data.takeWhile (fun c => c != ':')
    !scheme.isEmpty && scheme.all isAsciiAlpha &&
      !(rest.takeWhile (fun c => c != '/' && c != '?')).isEmpty

/-- Concrete demonstration URL with an allowed extension. -/
def urlA : String := "http://h/a.pdf"

/-- Well-formed request carrying the demonstration URL. -/
def reqA : Request := { contentType := "application/json", body := some urlA }

/-- Concrete file value for building at-quota tasks. -/
def fileA : File := { url := urlA, filename := "a.pdf", data := [ 1 ] }

/-- Fresh task as handleTasks creates it. -/
def task0 : Task := { id := "t", status := "created", files := [], errors := [], zipPath := "" }

/-- Task already holding quota-many files under the source configuration. -/
def taskFull : Task := { task0 with files := [ fileA, fileA, fileA ] }

/-- Task holding two files, one below the source quota. -/
def taskTwo : Task := { task0 with files := [ fileA, fileA ] }

/-- URL whose path segment and filename query parameter disagree. -/
def urlQ : String := "http://h/b.jpg?filename=c.jpg"

/-- Request carrying the disagreeing URL. -/
def reqQ : Request := { contentType := "application/json", body := some urlQ }

/-- Well-formed absolute URL with a non-http scheme. -/
def urlF : String := "ftp://example.com/a.pdf"

/-- Request carrying the non-http URL. -/
def reqF : Request := { contentType := "application/json", body := some urlF }

/-- Request with a wrong Content-Type header. -/
def reqBadCT : Request := { contentType := "text/plain", body := some urlA }

/-- Request with a parameterized JSON Content-Type variant. -/
def reqCharset : Request := { contentType := "application/json; charset=utf-8", body := some urlA }

/-- Request whose body fails to unmarshal. -/
def reqMalformed : Request := { contentType := "application/json", body := none }

/-- Demonstration run: one task created and filled to its quota, which
dispatches the build. -/
def demoEvs : List GEv :=
  [ GEv.newTask "t",
    GEv.taskEv 0 (TEv.post reqA (some [ 1 ])),
    GEv.taskEv 0 (TEv.post reqA (some [ 2 ])),
    GEv.taskEv 0 (TEv.post reqA (some [ 3 ])) ]

/-- The task state after the demonstration run. -/
def demoCtl : TaskCtl := ((runSys config demoEvs).tasks).headD (initCtl "x")

/-- The task state after the demonstration run and a successful build. -/
def demoCtl2 : TaskCtl :=
  ((stepSys config (runSys config demoEvs) (GEv.taskEv 0 (TEv.build true []))).tasks).headD (initCtl "x")

/-- At quota, addFile rejects before reading anything else (src/main.go
lines 157-161). -/
theorem addFile_quota (cfg : Config) (fr : Option (List Nat)) (req : Request) (t : Task)
    (h : cfg.maxFilesPerTask ≤ t.files.length) :
    addFile cfg fr req t = ⟨t, false, AddFileResult.quotaExceeded⟩ := by
  unfold addFile
  rw [if_pos h]

/-- Below quota, a body that fails to decode is rejected as invalid
(src/main.go lines 167-171). -/
theorem addFile_invalidBody (cfg : Config) (fr : Option (List Nat)) (req : Request) (t : Task)
    (h : t.files.length < cfg.maxFilesPerTask) (hd : decodeJSONBody req = none) :
    addFile cfg fr req t = ⟨t, false, AddFileResult.invalidBody⟩ := by
  unfold addFile
  rw [if_neg (by omega), hd]

/-- Below quota with a decoded body, a URL failing the prefix test is
rejected (src/main.go lines 173-177). -/
theorem addFile_invalidURL (cfg : Config) (fr : Option (List Nat)) (req : Request) (t : Task)
    (url : String) (h : t.files.length < cfg.maxFilesPerTask)
    (hd : decodeJSONBody req = some url) (hv : isValidURL url = false) :
    addFile cfg fr req t = ⟨t, false, AddFileResult.invalidURL⟩ := by
  unfold addFile
  rw [if_neg (by omega), hd]
  simp [hv]

/-- Below quota with a valid URL whose derived extension is not allowed,
the request is rejected (src/main.go lines 179-183). -/
theorem addFile_notAllowed (cfg : Config) (fr : Option (List Nat)) (req : Request) (t : Task)
    (url : String) (h : t.files.length < cfg.maxFilesPerTask)
    (hd : decodeJSONBody req = some url) (hv : isValidURL url = true)
    (ha : hasAllowedExtension url = false) :
    addFile cfg fr req t = ⟨t, false, AddFileResult.notAllowed⟩ := by
  unfold addFile
  rw [if_neg (by omega), hd]
  simp [hv, ha]

/-- A failing fetch appends exactly one diagnostic and changes nothing
else (src/main.go lines 185-198). -/
theorem addFile_fetchFail (cfg : Config) (req : Request) (t : Task) (url : String)
    (h : t.files.length < cfg.maxFilesPerTask) (hd : decodeJSONBody req = some url)
    (hv : isValidURL url = true) (ha : hasAllowedExtension url = true) :
    addFile cfg none req t =
      ⟨{ t with errors := t.errors ++ [ failedDownloadMsg url ] }, false, AddFileResult.fetchFailed⟩ := by
  unfold addFile
  rw [if_neg (by omega), hd]
  simp [hv, ha]

/-- A successful fetch appends the file under the raw-URL-derived name
and dispatches the build exactly when the count reaches the quota
(src/main.go lines 200-209). -/
theorem addFile_appends (cfg : Config) (req : Request) (t : Task) (url : String) (data : List Nat)
    (h : t.files.length < cfg.maxFilesPerTask) (hd : decodeJSONBody req = some url)
    (hv : isValidURL url = true) (ha : hasAllowedExtension url = true) :
    addFile cfg (some data) req t =
      (if t.files.length + 1 = cfg.maxFilesPerTask then
        ⟨{ t with files := t.files ++ [ { url := url, filename := downloadFilename url, data := data } ],
                  status := "processing" }, true, AddFileResult.accepted⟩
      else
        ⟨{ t with files := t.files ++ [ { url := url, filename := downloadFilename url, data := data } ] },
          false, AddFileResult.accepted⟩) := by
  unfold addFile
  rw [if_neg (by omega), hd]
  simp [hv, ha]

/-- Field-level summary of one addFile call, as needed by the invariants:
the archive path is never touched, and either nothing is appended and
status and files are unchanged, or exactly one file is appended below
quota, with the dispatch happening exactly on reaching the quota. -/
theorem addFile_shape (cfg : Config) (fr : Option (List Nat)) (req : Request) (t : Task) :
    (addFile cfg fr req t).task.zipPath = t.zipPath ∧
    (addFile cfg fr req t).task.id = t.id ∧
    (((addFile cfg fr req t).dispatched = false ∧
      (addFile cfg fr req t).task.files = t.files ∧
      (addFile cfg fr req t).task.status = t.status) ∨
     (t.files.length < cfg.maxFilesPerTask ∧
      (addFile cfg fr req t).task.files.length = t.files.length + 1 ∧
      (((addFile cfg fr req t).dispatched = true ∧
        (addFile cfg fr req t).task.files.length = cfg.maxFilesPerTask ∧
        (addFile cfg fr req t).task.status = "processing") ∨
       ((addFile cfg fr req t).dispatched = false ∧
        (addFile cfg fr req t).task.files.length ≠ cfg.maxFilesPerTask ∧
        (addFile cfg fr req t).task.status = t.status)))) := by
  rcases Nat.lt_or_ge t.files.length cfg.maxFilesPerTask with hlt | hge
  case inr =>
    rw [addFile_quota cfg fr req t hge]
    exact ⟨rfl, rfl, Or.inl ⟨rfl, rfl, rfl⟩⟩
  case inl =>
    cases hdec : decodeJSONBody req with
    | none =>
      rw [addFile_invalidBody cfg fr req t hlt hdec]
      exact ⟨rfl, rfl, Or.inl ⟨rfl, rfl, rfl⟩⟩
    | some url =>
      cases hv : isValidURL url with
      | false =>
        rw [addFile_invalidURL cfg fr req t url hlt hdec hv]
        exact ⟨rfl, rfl, Or.inl ⟨rfl, rfl, rfl⟩⟩
      | true =>
        cases ha : hasAllowedExtension url with
        | false =>
          rw [addFile_notAllowed cfg fr req t url hlt hdec hv ha]
          exact ⟨rfl, rfl, Or.inl ⟨rfl, rfl, rfl⟩⟩
        | true =>
          cases fr with
          | none =>
            rw [addFile_fetchFail cfg req t url hlt hdec hv ha]
            exact ⟨rfl, rfl, Or.inl ⟨rfl, rfl, rfl⟩⟩
          | some data =>
            rw [addFile_appends cfg req t url data hlt hdec hv ha]
            by_cases hq : t.files.length + 1 = cfg.maxFilesPerTask
            · rw [if_pos hq]
              refine ⟨rfl, rfl, Or.inr ⟨hlt, by simp, Or.inl ⟨rfl, by simp [hq], rfl⟩⟩⟩
            · rw [if_neg hq]
              refine ⟨rfl, rfl, Or.inr ⟨hlt, by simp, Or.inr ⟨rfl, by simp [hq], rfl⟩⟩⟩

/-- Field-level summary of one createZipArchive run: files and id are
preserved, and the outcome is completed with the archive path set or
failed with the archive path untouched, by the creation outcome. -/
theorem createZip_shape (cfg : Config) (co : Bool) (outs : List EntryOut) (t : Task) :
    (createZipArchive cfg co outs t).files = t.files ∧
    (createZipArchive cfg co outs t).id = t.id ∧
    ((co = true ∧ (createZipArchive cfg co outs t).status = "completed" ∧
      (createZipArchive cfg co outs t).zipPath = zipPathFor cfg t.id) ∨
     (co = false ∧ (createZipArchive cfg co outs t).status = "failed" ∧
      (createZipArchive cfg co outs t).zipPath = t.zipPath)) := by
  cases co <;> simp [createZipArchive]

/-- The archive path of a task is never the empty string. -/
theorem zipPathFor_ne_empty (cfg : Config) (id : String) : zipPathFor cfg id ≠ "" := by
  unfold zipPathFor
  intro h
  have h2 := congrArg String.length h
  simp [String.length_append] at h2
  exact absurd h2.2 (by decide)

/-- The initial task state satisfies the invariant. -/
theorem initCtl_inv (cfg : Config) (id : String) : TaskInv cfg (initCtl id) := by
  refine ⟨by simp [initCtl], by simp [initCtl], ?_, by simp [initCtl], ?_, ?_, ?_⟩
  · intro h
    simp [initCtl] at h
  · simp [initCtl]
  · simp [initCtl]
  · intro h
    simp [initCtl] at h

/-- Every serialized task event preserves the task invariant. -/
theorem stepTask_inv (cfg : Config) (e : TEv) (c : TaskCtl) (h : TaskInv cfg c) :
    TaskInv cfg (stepTask cfg e c) := by
  obtain ⟨h1, h2, h3, h4, h5, h6, h7⟩ := h
  cases e with
  | get => exact ⟨h1, h2, h3, h4, h5, h6, h7⟩
  | build createOk outs =>
    by_cases hp : c.pending
    · have hd1 : c.dispatchCount = 1 := by
        rw [if_pos hp] at h4
        omega
      have hr0 : c.releaseCount = 0 := by
        rw [if_pos hp] at h4
        omega
      have hst : c.task.status = "processing" := h6 hp
      have hz : c.task.zipPath = "" := by
        by_contra hne
        have := h5.mp hne
        rw [hst] at this
        exact absurd this (by decide)
      obtain ⟨cf, cid, cout⟩ := createZip_shape cfg createOk outs c.task
      simp only [stepTask, if_pos hp, TaskInv]
      rcases cout with ⟨-, cs, cz⟩ | ⟨-, cs, cz⟩
      · refine ⟨by rw [cf]; exact h1, h2, by rw [cf]; exact h3, by simp [hr0, hd1], ?_, ?_, ?_⟩
        · rw [cs, cz]
          simp [zipPathFor_ne_empty]
        · intro hb
          simp at hb
        · intro hcase
          exact hd1
      · refine ⟨by rw [cf]; exact h1, h2, by rw [cf]; exact h3, by simp [hr0, hd1], ?_, ?_, ?_⟩
        · rw [cs, cz, hz]
          simp
        · intro hb
          simp at hb
        · intro hcase
          exact hd1
    · simp only [stepTask, if_neg hp]
      exact ⟨h1, h2, h3, h4, h5, h6, h7⟩
  | post req fr =>
    obtain ⟨hz, hid, hsh⟩ := addFile_shape cfg fr req c.task
    simp only [stepTask, TaskInv]
    rcases hsh with ⟨hd0, hf, hs⟩ | ⟨hlt, hlen, hsub⟩
    · refine ⟨?_, ?_, ?_, ?_, ?_, ?_, ?_⟩
      · simpa [hf] using h1
      · simpa [hd0] using h2
      · simpa [hd0, hf] using h3
      · simpa [hd0] using h4
      · simpa [hz, hs] using h5
      · simpa [hd0, hs] using h6
      · simpa [hd0, hs] using h7
    · have hdne : c.dispatchCount ≠ 1 := by
        intro he
        have := h3 he
        omega
      have hdz : c.dispatchCount = 0 := by omega
      rcases hsub with ⟨hd1, hq, hs⟩ | ⟨hdd, hq, hs⟩
      · have hpf : c.pending = false := by
          rw [hdz] at h4
          cases hcp : c.pending
          · rfl
          · rw [hcp, if_pos rfl] at h4
            omega
        have hr0 : c.releaseCount = 0 := by
          rw [hdz, hpf] at h4
          simpa using h4
        have hzc : c.task.zipPath = "" := by
          by_contra hne
          have := h7 (Or.inl (h5.mp hne))
          omega
        refine ⟨?_, ?_, ?_, ?_, ?_, ?_, ?_⟩
        · simp [hq]
        · simp [hd1, hdz]
        · exact fun _ => hq
        · simp [hd1, hdz, hr0, hpf]
        · constructor
          · intro hbad
            rw [hz, hzc] at hbad
            exact absurd rfl hbad
          · intro hbad
            rw [hs] at hbad
            exact absurd hbad (by decide)
        · exact fun _ => hs
        · intro hcase
          rw [hs] at hcase
          rcases hcase with hc | hc <;> exact absurd hc (by decide)
      · refine ⟨?_, ?_, ?_, ?_, ?_, ?_, ?_⟩
        · omega
        · simpa [hdd] using h2
        · intro hcond
          have hcd : c.dispatchCount = 1 := by simpa [hdd] using hcond
          have := h3 hcd
          omega
        · simpa [hdd] using h4
        · simpa [hz, hs] using h5
        · simpa [hdd, hs] using h6
        · simpa [hdd, hs] using h7

/-- Membership in an updated list comes from an untouched element or an
updated one. -/
theorem mem_updateAt (i : Nat) (f : TaskCtl → TaskCtl) (l : List TaskCtl) (c : TaskCtl)
    (h : c ∈ updateAt i f l) : c ∈ l ∨ ∃ x, x ∈ l ∧ c = f x := by
  induction l generalizing i with
  | nil => simp [updateAt] at h
  | cons a l ih =>
    cases i with
    | zero =>
      rcases List.mem_cons.mp h with h0 | h0
      · exact Or.inr ⟨a, by simp, h0⟩
      · exact Or.inl (List.mem_cons_of_mem a h0)
    | succ n =>
      rcases List.mem_cons.mp h with h0 | h0
      · exact Or.inl (by simp [h0])
      · rcases ih n h0 with h2 | ⟨x, hx, he⟩
        · exact Or.inl (List.mem_cons_of_mem a h2)
        · exact Or.inr ⟨x, List.mem_cons_of_mem a hx, he⟩

/-- Updating one element keeps the length. -/
theorem updateAt_length (i : Nat) (f : TaskCtl → TaskCtl) (l : List TaskCtl) :
    (updateAt i f l).length = l.length := by
  induction l generalizing i with
  | nil => simp [updateAt]
  | cons a l ih =>
    cases i with
    | zero => simp [updateAt]
    | succ n => simp [updateAt, ih n]

/-- When every task has released at most one slot, total releases are
bounded by the number of tasks. -/
theorem sum_releases_le (l : List TaskCtl) (h : ∀ c ∈ l, c.releaseCount ≤ 1) :
    (l.map TaskCtl.releaseCount).sum ≤ l.length := by
  induction l with
  | nil => simp
  | cons a l ih =>
    simp only [List.map_cons, List.sum_cons, List.length_cons]
    have ha := h a (by simp)
    have hl := ih (fun c hc => h c (List.mem_cons_of_mem a hc))
    omega

/-- An elementwise release-monotone update does not decrease the total
release count. -/
theorem sum_updateAt_ge (l : List TaskCtl) (i : Nat) (f : TaskCtl → TaskCtl)
    (hf : ∀ x, x.releaseCount ≤ (f x).releaseCount) :
    (l.map TaskCtl.releaseCount).sum ≤ ((updateAt i f l).map TaskCtl.releaseCount).sum := by
  induction l generalizing i with
  | nil => simp [updateAt]
  | cons a l ih =>
    cases i with
    | zero =>
      simp only [updateAt, List.map_cons, List.sum_cons]
      have := hf a
      omega
    | succ n =>
      simp only [updateAt, List.map_cons, List.sum_cons]
      have := ih n
      omega

/-- A task step never takes back a performed release. -/
theorem stepTask_release_mono (cfg : Config) (e : TEv) (c : TaskCtl) :
    c.releaseCount ≤ (stepTask cfg e c).releaseCount := by
  cases e with
  | post req fr => simp [stepTask]
  | get => simp [stepTask]
  | build co outs =>
    by_cases hp : c.pending
    · simp [stepTask, hp]
    · simp [stepTask, hp]

/-- Every system step preserves the system invariant. -/
theorem stepSys_inv (cfg : Config) (s : Sys) (e : GEv) (h : SysInv cfg s) :
    SysInv cfg (stepSys cfg s e) := by
  obtain ⟨hall, hocc⟩ := h
  cases e with
  | newTask id =>
    by_cases hadm : sysAcquires s - sysReleases s < cfg.maxActiveTasks
    · simp only [stepSys, if_pos hadm]
      constructor
      · intro c hc
        rcases List.mem_append.mp hc with hc | hc
        · exact hall c hc
        · rw [List.mem_singleton.mp hc]
          exact initCtl_inv cfg id
      · simp only [sysAcquires, sysReleases, List.length_append, List.map_append, List.sum_append]
        simp only [sysAcquires, sysReleases] at hadm
        simp [initCtl]
        omega
    · simp only [stepSys, if_neg hadm]
      exact ⟨hall, hocc⟩
  | taskEv i e =>
    constructor
    · intro c hc
      simp only [stepSys] at hc
      rcases mem_updateAt i (stepTask cfg e) s.tasks c hc with hm | ⟨x, hx, he⟩
      · exact hall c hm
      · rw [he]
        exact stepTask_inv cfg e x (hall x hx)
    · simp only [stepSys, sysAcquires, sysReleases, updateAt_length]
      have hmono := sum_updateAt_ge s.tasks i (stepTask cfg e) (stepTask_release_mono cfg e)
      simp only [sysAcquires, sysReleases] at hocc
      omega

/-- Every reachable system state satisfies the system invariant. -/
theorem runSys_inv (cfg : Config) (evs : List GEv) : SysInv cfg (runSys cfg evs) := by
  have hfold : ∀ (l : List GEv) (s : Sys), SysInv cfg s → SysInv cfg (l.foldl (stepSys cfg) s) := by
    intro l
    induction l with
    | nil => intro s hs; exact hs
    | cons e l ih =>
      intro s hs
      exact ih (stepSys cfg s e) (stepSys_inv cfg s e hs)
  refine hfold evs { tasks := [] } ⟨?_, ?_⟩
  · intro c hc
    simp at hc
  · simp [sysAcquires, sysReleases]

/-- Indexing into an updated list: only the updated position changes. -/
theorem updateAt_getElem (i j : Nat) (f : TaskCtl → TaskCtl) (l : List TaskCtl) :
    (updateAt i f l)[j]? = if j = i then (l[j]?).map f else l[j]? := by
  induction l generalizing i j with
  | nil => simp [updateAt]
  | cons a l ih =>
    cases i with
    | zero =>
      cases j with
      | zero => simp [updateAt]
      | succ m => simp [updateAt]
    | succ n =>
      cases j with
      | zero => simp [updateAt]
      | succ m =>
        simp only [updateAt, List.getElem?_cons_succ, ih n]
        by_cases hji : m = n
        · simp [hji]
        · simp [hji]

/-- A task step changes the archive path only at the transition to the
completed state: the task was not completed before, its archive path was
empty, and the step completes it with a non-empty path. -/
theorem stepTask_zip_change (cfg : Config) (e : TEv) (c : TaskCtl) (hinv : TaskInv cfg c)
    (hch : (stepTask cfg e c).task.zipPath ≠ c.task.zipPath) :
    c.task.status ≠ "completed" ∧ c.task.zipPath = "" ∧
    (stepTask cfg e c).task.status = "completed" ∧
    (stepTask cfg e c).task.zipPath ≠ "" := by
  obtain ⟨h1, h2, h3, h4, h5, h6, h7⟩ := hinv
  cases e with
  | get => exact absurd rfl hch
  | post req fr =>
    obtain ⟨hz, -, -⟩ := addFile_shape cfg fr req c.task
    exact absurd (by simpa [stepTask] using hz) hch
  | build createOk outs =>
    by_cases hp : c.pending
    · have hst : c.task.status = "processing" := h6 hp
      have hzc : c.task.zipPath = "" := by
        by_contra hne
        have := h5.mp hne
        rw [hst] at this
        exact absurd this (by decide)
      obtain ⟨-, -, cout⟩ := createZip_shape cfg createOk outs c.task
      rcases cout with ⟨-, cs, cz⟩ | ⟨-, cs, cz⟩
      · refine ⟨?_, hzc, ?_, ?_⟩
        · rw [hst]
          decide
        · simpa [stepTask, hp] using cs
        · have : (stepTask cfg (TEv.build createOk outs) c).task.zipPath = zipPathFor cfg c.task.id := by
            simpa [stepTask, hp] using cz
          rw [this]
          exact zipPathFor_ne_empty cfg c.task.id
      · have : (stepTask cfg (TEv.build createOk outs) c).task.zipPath = c.task.zipPath := by
          simpa [stepTask, hp] using cz
        exact absurd this hch
    · simp only [stepTask, if_neg hp] at hch
      exact absurd rfl hch

/-- The entry loop appends exactly one diagnostic per failing entry. -/
theorem buildErrors_length (outs : List EntryOut) (files : List File) :
    (buildErrors outs files).length = entryFailCount outs files := by
  induction files generalizing outs with
  | nil => cases outs <;> simp [buildErrors, entryFailCount]
  | cons f fs ih =>
    cases outs with
    | nil => simpa [buildErrors, entryFailCount] using ih []
    | cons o os => cases o <;> simp [buildErrors, entryFailCount, ih os]

/-- The entry loop writes every file except those whose entry creation
failed. -/
theorem archiveEntries_length (outs : List EntryOut) (files : List File) :
    (archiveEntries outs files).length + createFailCount outs files = files.length := by
  induction files generalizing outs with
  | nil => cases outs <;> simp [archiveEntries, createFailCount]
  | cons f fs ih =>
    cases outs with
    | nil =>
      have h := ih []
      simp only [archiveEntries, createFailCount, List.length_cons]
      omega
    | cons o os =>
      have h := ih os
      cases o <;> simp only [archiveEntries, createFailCount, List.length_cons] <;> omega

/-- C1: for every task the number of collected files never exceeds the
configured per-task quota, and the archive build is dispatched for
exactly the one addFile call that brings the count to exactly the quota,
so the number of build dispatches per task over any execution is 0 or 1. -/
theorem c1_quota_and_single_dispatch :
    (∀ (cfg : Config) (evs : List GEv), ∀ c ∈ (runSys cfg evs).tasks,
      c.task.files.length ≤ cfg.maxFilesPerTask ∧
      c.dispatchCount ≤ 1 ∧
      (c.dispatchCount = 1 → c.task.files.length = cfg.maxFilesPerTask)) ∧
    (∀ (cfg : Config) (fr : Option (List Nat)) (req : Request) (t : Task),
      (addFile cfg fr req t).dispatched = true ↔
        ((addFile cfg fr req t).task.files.length = t.files.length + 1 ∧
         (addFile cfg fr req t).task.files.length = cfg.maxFilesPerTask)) := by
  constructor
  · intro cfg evs c hc
    obtain ⟨h1, h2, h3, -, -, -, -⟩ := (runSys_inv cfg evs).1 c hc
    exact ⟨h1, h2, h3⟩
  · intro cfg fr req t
    obtain ⟨-, -, hsh⟩ := addFile_shape cfg fr req t
    constructor
    · intro hd
      rcases hsh with ⟨hd0, -, -⟩ | ⟨-, hlen, hsub⟩
      · rw [hd] at hd0
        exact absurd hd0 (by decide)
      · rcases hsub with ⟨-, hq, -⟩ | ⟨hd0, -, -⟩
        · exact ⟨hlen, hq⟩
        · rw [hd] at hd0
          exact absurd hd0 (by decide)
    · intro ⟨hlen, hq⟩
      rcases hsh with ⟨-, hf, -⟩ | ⟨-, -, hsub⟩
      · rw [hf] at hlen
        omega
      · rcases hsub with ⟨hd1, -, -⟩ | ⟨-, hne, -⟩
        · exact hd1
        · exact absurd hq hne

/-- C1 witness: in the demonstration run the task reaches the quota of
three files and the build is dispatched exactly once. -/
theorem c1_quota_and_single_dispatch_witness :
    demoCtl.task.files.length ≤ config.maxFilesPerTask ∧
    demoCtl.dispatchCount ≤ 1 ∧
    demoCtl.task.files.length = config.maxFilesPerTask := by
  have h := c1_quota_and_single_dispatch.1 config demoEvs demoCtl (by decide)
  exact ⟨h.1, h.2.1, h.2.2 (by decide)⟩

/-- C2: for every task and at every point of execution the archive
location is non-empty exactly when the status is completed, and the
archive location changes only at the single step that completes the
task, from empty to a non-empty path — it is empty in the created,
processing and failed states. -/
theorem c2_zipPath_iff_completed :
    (∀ (cfg : Config) (evs : List GEv), ∀ c ∈ (runSys cfg evs).tasks,
      (c.task.zipPath ≠ "" ↔ c.task.status = "completed")) ∧
    (∀ (cfg : Config) (evs : List GEv) (e : GEv) (i : Nat) (c c2 : TaskCtl),
      (runSys cfg evs).tasks[i]? = some c →
      (stepSys cfg (runSys cfg evs) e).tasks[i]? = some c2 →
      c2.task.zipPath ≠ c.task.zipPath →
      c.task.status ≠ "completed" ∧ c.task.zipPath = "" ∧
      c2.task.status = "completed" ∧ c2.task.zipPath ≠ "") := by
  constructor
  · intro cfg evs c hc
    obtain ⟨-, -, -, -, h5, -, -⟩ := (runSys_inv cfg evs).1 c hc
    exact h5
  · intro cfg evs e i c c2 hc hc2 hch
    have hinv := (runSys_inv cfg evs).1 c (List.getElem?_mem hc)
    cases e with
    | newTask id =>
      simp only [stepSys] at hc2
      by_cases hadm : sysAcquires (runSys cfg evs) - sysReleases (runSys cfg evs) < cfg.maxActiveTasks
      · rw [if_pos hadm] at hc2
        have hi : i < (runSys cfg evs).tasks.length := (List.getElem?_eq_some.mp hc).1
        rw [List.getElem?_append_left hi, hc] at hc2
        rw [Option.some.inj hc2] at hch
        exact absurd rfl hch
      · rw [if_neg hadm] at hc2
        rw [hc] at hc2
        rw [Option.some.inj hc2] at hch
        exact absurd rfl hch
    | taskEv j te =>
      simp only [stepSys] at hc2
      rw [updateAt_getElem j i (stepTask cfg te) (runSys cfg evs).tasks] at hc2
      by_cases hij : i = j
      · rw [if_pos hij, hc] at hc2
        have he : c2 = stepTask cfg te c := (Option.some.inj hc2).symm
        rw [he] at hch
        obtain ⟨ha, hb, hcc, hd⟩ := stepTask_zip_change cfg te c hinv hch
        rw [he]
        exact ⟨ha, hb, hcc, hd⟩
      · rw [if_neg hij, hc] at hc2
        rw [Option.some.inj hc2] at hch
        exact absurd rfl hch

/-- C2 witness: the demonstration build step sets the archive path at
the very transition to the completed status. -/
theorem c2_zipPath_iff_completed_witness :
    demoCtl.task.status ≠ "completed" ∧ demoCtl.task.zipPath = "" ∧
    demoCtl2.task.status = "completed" ∧ demoCtl2.task.zipPath ≠ "" :=
  c2_zipPath_iff_completed.2 config demoEvs (GEv.taskEv 0 (TEv.build true [])) 0
    demoCtl demoCtl2 (by decide) (by decide) (by decide)

/-- C4 counterexample: after one successful admission with no build yet,
total releases (zero) are strictly below total acquisitions (one), so
releases are not greater than or equal to acquisitions over this
execution. -/
theorem c4_counterexample :
    ¬ (sysAcquires (runSys config [ GEv.newTask "t" ]) ≤
       sysReleases (runSys config [ GEv.newTask "t" ])) := by
  decide

/-- C4 amended: over any execution the total number of slot releases is
at most (not at least) the total number of successful acquisitions, and
the number of outstanding acquired-but-unreleased slots never exceeds
the configured maximum concurrent tasks. -/
theorem c4_amended :
    ∀ (cfg : Config) (evs : List GEv),
      sysReleases (runSys cfg evs) ≤ sysAcquires (runSys cfg evs) ∧
      sysAcquires (runSys cfg evs) - sysReleases (runSys cfg evs) ≤ cfg.maxActiveTasks := by
  intro cfg evs
  obtain ⟨hall, hocc⟩ := runSys_inv cfg evs
  refine ⟨sum_releases_le (runSys cfg evs).tasks ?_, hocc⟩
  intro c hc
  obtain ⟨-, h2, -, h4, -, -, -⟩ := hall c hc
  cases hcp : c.pending <;> rw [hcp] at h4 <;> simp at h4 <;> omega

/-- C3 counterexample: for a URL whose filename query parameter names
one file and whose path names another, the query-preferring derivation
(parseURL) yields the parameter value, but the accepted submission
stores — and the archive loop uses as entry name — the base of the raw
URL string instead. -/
theorem c3_counterexample :
    parseURL urlQ = some "c.jpg" ∧
    (addFile config (some [ 7 ]) reqQ task0).result = AddFileResult.accepted ∧
    (addFile config (some [ 7 ]) reqQ task0).task.files.map File.filename =
      [ "b.jpg?filename=c.jpg" ] ∧
    archiveEntries [ EntryOut.ok ] (addFile config (some [ 7 ]) reqQ task0).task.files =
      [ "b.jpg?filename=c.jpg" ] ∧
    ("b.jpg?filename=c.jpg" : String) ≠ "c.jpg" := by
  refine ⟨by decide, by decide, by decide, by decide, by decide⟩

/-- C3 amended: the filename under which an accepted file is stored, and
later written as the archive entry name, is the filepath base of the raw
URL string (with the file-plus-extension fallback), not the
query-parameter-preferring derivation; the latter (parseURL) is used
only for extension validation. -/
theorem c3_amended :
    ∀ (cfg : Config) (req : Request) (t : Task) (url : String) (data : List Nat),
      t.files.length < cfg.maxFilesPerTask →
      decodeJSONBody req = some url →
      isValidURL url = true →
      hasAllowedExtension url = true →
      ((addFile cfg (some data) req t).task.files =
        t.files ++ [ { url := url, filename := downloadFilename url, data := data } ] ∧
       (addFile cfg (some data) req t).result = AddFileResult.accepted) := by
  intro cfg req t url data h hd hv ha
  rw [addFile_appends cfg req t url data h hd hv ha]
  by_cases hq : t.files.length + 1 = cfg.maxFilesPerTask
  · rw [if_pos hq]
    exact ⟨rfl, rfl⟩
  · rw [if_neg hq]
    exact ⟨rfl, rfl⟩

/-- C3 amended witness: the accepted submission of the disagreeing URL
stores the raw-URL-derived name. -/
theorem c3_amended_witness :
    (addFile config (some [ 7 ]) reqQ task0).task.files =
      task0.files ++ [ { url := urlQ, filename := downloadFilename urlQ, data := [ 7 ] } ] ∧
    (addFile config (some [ 7 ]) reqQ task0).result = AddFileResult.accepted :=
  c3_amended config reqQ task0 urlQ [ 7 ] (by decide) (by decide) (by decide) (by decide)

/-- C5: an addFile call whose fetch fails appends exactly one diagnostic
to the errors of the task, leaves the files sequence unchanged (the file
slot is not consumed) and the status unchanged, so the caller may submit
again to the same task. -/
theorem c5_fetch_failure_keeps_slot :
    ∀ (cfg : Config) (req : Request) (t : Task) (url : String),
      t.files.length < cfg.maxFilesPerTask →
      decodeJSONBody req = some url →
      isValidURL url = true →
      hasAllowedExtension url = true →
      ((addFile cfg none req t).task.files = t.files ∧
       (addFile cfg none req t).task.status = t.status ∧
       (addFile cfg none req t).task.errors = t.errors ++ [ failedDownloadMsg url ] ∧
       (addFile cfg none req t).task.zipPath = t.zipPath ∧
       (addFile cfg none req t).dispatched = false ∧
       (addFile cfg none req t).result = AddFileResult.fetchFailed) := by
  intro cfg req t url h hd hv ha
  rw [addFile_fetchFail cfg req t url h hd hv ha]
  exact ⟨rfl, rfl, rfl, rfl, rfl, rfl⟩

/-- C5 witness: a failed fetch on a fresh task records one diagnostic
and consumes nothing. -/
theorem c5_fetch_failure_keeps_slot_witness :
    (addFile config none reqA task0).task.files = task0.files ∧
    (addFile config none reqA task0).task.status = task0.status ∧
    (addFile config none reqA task0).task.errors = task0.errors ++ [ failedDownloadMsg urlA ] ∧
    (addFile config none reqA task0).task.zipPath = task0.zipPath ∧
    (addFile config none reqA task0).dispatched = false ∧
    (addFile config none reqA task0).result = AddFileResult.fetchFailed :=
  c5_fetch_failure_keeps_slot config reqA task0 urlA (by decide) (by decide) (by decide) (by decide)

/-- C6: once the archive container is created, a per-entry failure only
appends a diagnostic and skips that entry; the build continues with the
remaining files and the final status is completed — never failed —
regardless of how many per-entry failures occurred. -/
theorem c6_entry_failures_still_complete :
    ∀ (cfg : Config) (t : Task) (outs : List EntryOut),
      (createZipArchive cfg true outs t).status = "completed" ∧
      (createZipArchive cfg true outs t).status ≠ "failed" ∧
      (createZipArchive cfg true outs t).files = t.files ∧
      (createZipArchive cfg true outs t).zipPath = zipPathFor cfg t.id ∧
      (createZipArchive cfg true outs t).errors = t.errors ++ buildErrors outs t.files ∧
      (buildErrors outs t.files).length = entryFailCount outs t.files ∧
      (archiveEntries outs t.files).length + createFailCount outs t.files = t.files.length := by
  intro cfg t outs
  have hs : (createZipArchive cfg true outs t).status = "completed" := by
    simp [createZipArchive]
  refine ⟨hs, ?_, by simp [createZipArchive], by simp [createZipArchive],
    by simp [createZipArchive], buildErrors_length outs t.files,
    archiveEntries_length outs t.files⟩
  rw [hs]
  decide

/-- C7 counterexample: a well-formed absolute URL with a non-http scheme
is rejected as an invalid reference, so the rejection condition is not
well-formedness. -/
theorem c7_counterexample :
    wellFormedAbsoluteURL urlF = true ∧
    (addFile config (some [ 1 ]) reqF task0).result = AddFileResult.invalidURL ∧
    (addFile config (some [ 1 ]) reqF task0).task = task0 := by
  refine ⟨by decide, by decide, by decide⟩

/-- C7 amended: below quota with a decoded body, addFile fails with
InvalidReference exactly when the reference does not start with the
http or https scheme prefix (a prefix test, not well-formedness), and
such a rejection leaves the task unchanged. -/
theorem c7_amended :
    ∀ (cfg : Config) (fr : Option (List Nat)) (req : Request) (t : Task) (url : String),
      t.files.length < cfg.maxFilesPerTask →
      decodeJSONBody req = some url →
      (((addFile cfg fr req t).result = AddFileResult.invalidURL ↔ isValidURL url = false) ∧
       ((addFile cfg fr req t).result = AddFileResult.invalidURL →
         (addFile cfg fr req t).task = t)) := by
  intro cfg fr req t url h hd
  cases hv : isValidURL url with
  | false =>
    rw [addFile_invalidURL cfg fr req t url h hd hv]
    exact ⟨⟨fun _ => rfl, fun _ => rfl⟩, fun _ => rfl⟩
  | true =>
    cases ha : hasAllowedExtension url with
    | false =>
      rw [addFile_notAllowed cfg fr req t url h hd hv ha]
      exact ⟨⟨fun hbad => by simp at hbad, fun hbad => by simp [hv] at hbad⟩,
        fun hbad => by simp at hbad⟩
    | true =>
      cases fr with
      | none =>
        rw [addFile_fetchFail cfg req t url h hd hv ha]
        exact ⟨⟨fun hbad => by simp at hbad, fun hbad => by simp [hv] at hbad⟩,
          fun hbad => by simp at hbad⟩
      | some data =>
        rw [addFile_appends cfg req t url data h hd hv ha]
        by_cases hq : t.files.length + 1 = cfg.maxFilesPerTask
        · rw [if_pos hq]
          exact ⟨⟨fun hbad => by simp at hbad, fun hbad => by simp [hv] at hbad⟩,
            fun hbad => by simp at hbad⟩
        · rw [if_neg hq]
          exact ⟨⟨fun hbad => by simp at hbad, fun hbad => by simp [hv] at hbad⟩,
            fun hbad => by simp at hbad⟩

/-- C7 amended witness: the non-http reference is rejected with the task
unchanged, and the rejection coincides with the failed prefix test. -/
theorem c7_amended_witness :
    (addFile config (some [ 2 ]) reqF taskTwo).result = AddFileResult.invalidURL ∧
    (addFile config (some [ 2 ]) reqF taskTwo).task = taskTwo := by
  have h := c7_amended config (some [ 2 ]) reqF taskTwo urlF (by decide) (by decide)
  have hres := h.1.mpr (by decide)
  exact ⟨hres, h.2 hres⟩

/-- C8 counterexample: on the successful control path the fetch phase
sits at position five of the handler phase list, the lock is held there,
and no unlock phase precedes it — the lock is not released before the
fetch. -/
theorem c8_counterexample :
    (postSteps config (some [ 1 ]) reqA task0)[5]? = some HStep.fetchStep ∧
    lockHeldAt (postSteps config (some [ 1 ]) reqA task0) 5 = true ∧
    countStep HStep.unlockStep ((postSteps config (some [ 1 ]) reqA task0).take 5) = 0 := by
  refine ⟨by decide, by decide, by decide⟩

/-- C8 amended: in every POST handler execution the task lock is the
first phase and its release the last, and every network fetch phase runs
while the lock is held — the lock is held across the fetch, not released
around it. -/
theorem c8_amended :
    ∀ (cfg : Config) (fr : Option (List Nat)) (req : Request) (t : Task),
      (postSteps cfg fr req t).headD HStep.respond = HStep.lockStep ∧
      (postSteps cfg fr req t).getLast? = some HStep.unlockStep ∧
      fetchUnderLock (postSteps cfg fr req t) = true := by
  intro cfg fr req t
  unfold postSteps
  by_cases hq : cfg.maxFilesPerTask ≤ t.files.length
  · rw [if_pos hq]
    exact ⟨rfl, rfl, rfl⟩
  · rw [if_neg hq]
    cases hdec : decodeJSONBody req with
    | none => exact ⟨rfl, rfl, rfl⟩
    | some url =>
      cases hv : isValidURL url with
      | false =>
        simp only [hv, Bool.false_eq_true, if_false]
        exact ⟨rfl, rfl, rfl⟩
      | true =>
        simp only [hv, if_true]
        cases ha : hasAllowedExtension url with
        | false =>
          simp only [ha, Bool.false_eq_true, if_false]
          exact ⟨rfl, rfl, rfl⟩
        | true =>
          simp only [ha, if_true]
          cases fr with
          | none => exact ⟨rfl, rfl, rfl⟩
          | some data => exact ⟨rfl, rfl, rfl⟩

/-- C9 counterexample: at quota, a request with a wrong Content-Type is
rejected as quota exceeded, not as an invalid request body. -/
theorem c9_counterexample :
    (addFile config (some [ 1 ]) reqBadCT taskFull).result = AddFileResult.quotaExceeded ∧
    (addFile config (some [ 1 ]) reqBadCT taskFull).result ≠ AddFileResult.invalidBody := by
  refine ⟨by decide, by decide⟩

/-- C9 amended: below quota, every addFile request whose Content-Type
header is not exactly application/json (including parameterized variants
such as application/json; charset=utf-8) is rejected as an invalid
request body with files, errors and status unchanged; at quota such
requests are rejected as quota exceeded instead. -/
theorem c9_amended :
    ∀ (cfg : Config) (fr : Option (List Nat)) (req : Request) (t : Task),
      t.files.length < cfg.maxFilesPerTask →
      req.contentType ≠ "application/json" →
      addFile cfg fr req t = ⟨t, false, AddFileResult.invalidBody⟩ := by
  intro cfg fr req t h hct
  exact addFile_invalidBody cfg fr req t h (by simp [decodeJSONBody, hct])

/-- C9 amended witness: a parameterized JSON Content-Type on a fresh
task is rejected as an invalid body with the task unchanged. -/
theorem c9_amended_witness :
    addFile config (some [ 1 ]) reqCharset task0 = ⟨task0, false, AddFileResult.invalidBody⟩ :=
  c9_amended config (some [ 1 ]) reqCharset task0 (by decide) (by decide)

/-- C10: when a task already holds quota-many files every addFile
request is rejected as quota exceeded before the body is read or any
other validation runs, and below quota the checks run in the order body
well-formedness, then URL validity, then extension — so at quota even a
malformed body or invalid URL yields the quota rejection, always with
the task unchanged. -/
theorem c10_check_order :
    ∀ (cfg : Config) (fr : Option (List Nat)) (req : Request) (t : Task),
      (cfg.maxFilesPerTask ≤ t.files.length →
        addFile cfg fr req t = ⟨t, false, AddFileResult.quotaExceeded⟩) ∧
      (t.files.length < cfg.maxFilesPerTask → decodeJSONBody req = none →
        addFile cfg fr req t = ⟨t, false, AddFileResult.invalidBody⟩) ∧
      (∀ url, t.files.length < cfg.maxFilesPerTask → decodeJSONBody req = some url →
        isValidURL url = false →
        addFile cfg fr req t = ⟨t, false, AddFileResult.invalidURL⟩) ∧
      (∀ url, t.files.length < cfg.maxFilesPerTask → decodeJSONBody req = some url →
        isValidURL url = true → hasAllowedExtension url = false →
        addFile cfg fr req t = ⟨t, false, AddFileResult.notAllowed⟩) :=
  fun cfg fr req t =>
    ⟨addFile_quota cfg fr req t,
     addFile_invalidBody cfg fr req t,
     fun url h hd hv => addFile_invalidURL cfg fr req t url h hd hv,
     fun url h hd hv ha => addFile_notAllowed cfg fr req t url h hd hv ha⟩

/-- C10 witness: at quota even a request whose body fails to unmarshal
is rejected as quota exceeded with the task unchanged. -/
theorem c10_check_order_witness :
    addFile config none reqMalformed taskFull = ⟨taskFull, false, AddFileResult.quotaExceeded⟩ :=
  (c10_check_order config none reqMalformed taskFull).1 (by decide)

end Srv
